import Mathlib

/-!
Shallow embedding of the DVD protocol handler (src/libavformat/dvd.c) and the
Blu-ray demuxer (src/libavformat/bluraydec.c) of this FFmpeg fork, together
with proofs about title selection, navigation-graph traversal, the linear
read cursor and the stream-bridge seek dispatch.

External collaborators (libdvdread, libbluray, avio) are modelled as
parameters: table contents read from the disc become record fields, and the
raw block-read / seek / select primitives become function arguments, so every
theorem quantifies over their behaviour.
-/

namespace FfDisc

/-! ### Error codes

`AVERROR(e)` is `-e` on POSIX; tag-based codes are `-MKTAG(...)`.
`AVERROR_IO_ERR` stands for `AVERROR(EIO)`. -/

def AVERROR_IO_ERR : ℤ := -5

def AVERROR_EINVAL : ℤ := -22

def AVERROR_ENOMEM : ℤ := -12

def AVERROR_EFAULT : ℤ := -14

def AVERROR_EOF : ℤ := -541478725

def AVERROR_DEMUXER_NOT_FOUND : ℤ := -1296385272

def DVD_SECTOR_SIZE : ℕ := 2048

/-! ### DVD data model (libdvdread tables reached from dvd.c)

The source distinguishes cells by the `block_type` field, comparing it with
`BLOCK_TYPE_ANGLE_BLOCK` (angle-block member) and `BLOCK_MODE_LAST_CELL`
(last cell of an angle block).  Following the spec's data model, the cell
marking is an enumeration with three distinct values: normal cell,
angle-block member, last cell of an angle block. -/

inductive BlockType where
  | normal
  | angleBlock
  | lastCell
deriving DecidableEq

/-- One entry of `pgc->cell_playback[]`. -/
structure CellPlayback where
  block_type : BlockType
  first_sector : ℕ
  last_sector : ℕ

/-- A program chain (`pgc_t`): cell array, program map and the BCD playback
time bytes used by `ff_dvd_get_title_set_length`.  Arrays are modelled as
total functions from the index, matching C's unchecked indexing. -/
structure Pgc where
  nr_of_cells : ℕ
  cell_playback : ℕ → CellPlayback
  program_map : ℕ → ℕ
  playback_hour : ℕ
  playback_minute : ℕ
  playback_second : ℕ

/-- One entry of `vmg_ifo->tt_srpt->title[]` (`title_info_t`). -/
structure TitleInfo where
  title_set_nr : ℕ
  vts_ttn : ℕ
  nr_of_ptts : ℕ
  nr_of_angles : ℕ

/-- The video-manager ifo tables used by `dvd_url_open`. -/
structure VmgIfo where
  nr_of_vtss : ℕ
  nr_of_srpts : ℕ
  title : ℕ → TitleInfo

/-- One `ptt_info_t` entry of `vts_ifo->vts_ptt_srpt->title[i].ptt[j]`. -/
structure PttInfo where
  pgcn : ℕ
  pgn : ℕ

/-- A title-set ifo as seen through `ifoOpen(dvd, vts_nr)`:
`open_ok` models a non-NULL `ifoOpen` result, `info_ok` models
`vtsi_mat != NULL && vts_pgcit != NULL`, `ptt i j` is
`vts_ptt_srpt->title[i].ptt[j]`, and `pgc i` is `vts_pgcit->pgci_srp[i].pgc`. -/
structure VtsIfo where
  open_ok : Bool
  info_ok : Bool
  ptt : ℕ → ℕ → PttInfo
  pgc : ℕ → Pgc

/-- `bcd2int` from dvd.c. -/
def bcd2int (bcd : ℕ) : ℕ :=
  ((bcd &&& 0xf0) >>> 4) * 10 + (bcd &&& 0x0f)

/-- `ff_dvd_get_title_set_length`: playback time of the title's first PGC in
milliseconds. -/
def ff_dvd_get_title_set_length (vts : VtsIfo) (vmg : VmgIfo) (title_nr : ℕ) : ℕ :=
  let vts_title_number := (vmg.title title_nr).vts_ttn - 1
  let pgc_number := (vts.ptt vts_title_number 0).pgcn
  let pb := vts.pgc (pgc_number - 1)
  (bcd2int pb.playback_hour * 3600 +
   bcd2int pb.playback_minute * 60 +
   bcd2int pb.playback_second) * 1000

/-- The cursor fields of `DvdProtocolContext` mutated by
`ff_dvd_set_program_chain_info` / `dvd_url_read`. -/
structure DvdCursor where
  current_pgc : Pgc
  current_cell : ℕ
  start_sector : ℕ
  current_sector : ℕ
  end_sector : ℕ

/-- `ff_dvd_set_program_chain_info`: resolve the entry cell of
`(title_nr, ptt_nr)` (1-based disc indices converted to 0-based), advance by
the angle number when the entry cell heads an angle block, and load the cell's
sector range into the cursor. -/
def ff_dvd_set_program_chain_info (vmg : VmgIfo) (vts : VtsIfo)
    (angle_nr : ℕ) (title_nr ptt_nr : ℕ) : DvdCursor :=
  let vts_title_number := (vmg.title title_nr).vts_ttn - 1
  let p := vts.ptt vts_title_number ptt_nr
  let pgc := vts.pgc (p.pgcn - 1)
  let cell0 := pgc.program_map (p.pgn - 1) - 1
  let cell :=
    if (pgc.cell_playback cell0).block_type = BlockType.angleBlock then
      cell0 + angle_nr
    else cell0
  { current_pgc := pgc
    current_cell := cell
    start_sector := (pgc.cell_playback cell).first_sector
    current_sector := (pgc.cell_playback cell).first_sector
    end_sector := (pgc.cell_playback cell).last_sector }

/-- The `while (next_cell < nr_of_cells && block_type != BLOCK_MODE_LAST_CELL)`
loop of `ff_dvd_get_next_cell`, with explicit fuel.  Fuel `nr_of_cells - i`
is exact: the loop increments `i` once per step and stops no later than
`i = nr_of_cells`. -/
def ffwdAux (pgc : Pgc) : ℕ → ℕ → ℕ
  | 0, i => i
  | fuel + 1, i =>
    if i < pgc.nr_of_cells ∧ (pgc.cell_playback i).block_type ≠ BlockType.lastCell then
      ffwdAux pgc fuel (i + 1)
    else i

def ffwdToLastCell (pgc : Pgc) (i : ℕ) : ℕ :=
  ffwdAux pgc (pgc.nr_of_cells - i) i

/-- `ff_dvd_get_next_cell`.  First component: the returned next cell
(`none` for the `-1` end-of-title return).  Second component: the value left
in `ctx->current_cell`, which the function increments by `ctx->angle_nr` in
the angle branch before scanning for the block's last cell. -/
def ff_dvd_get_next_cell (pgc : Pgc) (current_cell angle_nr : ℕ) : Option ℕ × ℕ :=
  if (pgc.cell_playback current_cell).block_type = BlockType.angleBlock then
    let mutated := current_cell + angle_nr
    let next_cell := ffwdToLastCell pgc current_cell + 1
    if next_cell ≥ pgc.nr_of_cells then (none, mutated) else (some next_cell, mutated)
  else
    let next_cell := current_cell + 1
    if next_cell ≥ pgc.nr_of_cells then (none, current_cell) else (some next_cell, current_cell)

/-- The context fields `dvd_url_read` touches. -/
structure DvdCtx where
  angle_nr : ℕ
  current_pgc : Pgc
  current_cell : ℕ
  start_sector : ℕ
  current_sector : ℕ
  end_sector : ℕ

/-- The cell-boundary handling at the top of `dvd_url_read` (lines 284-294):
when the current cell is exhausted, move to the next cell or report
end-of-title (`Except.error` carries the context as left behind by the failed
`ff_dvd_get_next_cell` call). -/
def dvd_cell_step (ctx : DvdCtx) : Except DvdCtx DvdCtx :=
  if ctx.current_sector ≥ ctx.end_sector then
    match ff_dvd_get_next_cell ctx.current_pgc ctx.current_cell ctx.angle_nr with
    | (none, mutated) => .error { ctx with current_cell := mutated }
    | (some nc, _) =>
      let cell := ctx.current_pgc.cell_playback nc
      .ok { ctx with
              current_cell := nc
              start_sector := cell.first_sector
              end_sector := cell.last_sector
              current_sector := cell.first_sector }
  else .ok ctx

/-- `dvd_url_read`: `readBlocks sector count` models
`DVDReadBlocks(dvd_title_file, sector, count, buf)`.  The block count handed
to the reader is `size / DVD_SECTOR_SIZE`, taken as-is from the request. -/
def dvd_url_read (ctx : DvdCtx) (size : ℕ) (readBlocks : ℕ → ℕ → ℤ) : ℤ × DvdCtx :=
  let num_blocks := size / DVD_SECTOR_SIZE
  match dvd_cell_step ctx with
  | .error c => (AVERROR_EOF, c)
  | .ok c =>
    let blocks_got := readBlocks c.current_sector num_blocks
    if blocks_got ≤ 0 then (AVERROR_IO_ERR, c)
    else (blocks_got * (DVD_SECTOR_SIZE : ℤ),
          { c with current_sector := c.current_sector + blocks_got.toNat })

/-- The visiting order of `dvd_url_read` starting from `current_cell`,
driven by the returned component of `ff_dvd_get_next_cell` (fuel-bounded). -/
def dvdTraj (pgc : Pgc) (angle_nr : ℕ) : ℕ → ℕ → List ℕ
  | 0, _ => []
  | fuel + 1, cur =>
    cur :: (match (ff_dvd_get_next_cell pgc cur angle_nr).1 with
            | none => []
            | some nc => dvdTraj pgc angle_nr fuel nc)

/-! ### dvd_url_open -/

/-- The iteration order of the title-enumeration double loop of
`dvd_url_open` (lines 187-234): `vts_nr` from 1 to `nr_of_vtss`, inside it
`title_nr` from 0, keeping the pairs with `title_set_nr == vts_nr`. -/
def dvdScanPairs (vmg : VmgIfo) : List (ℕ × ℕ) :=
  (List.range vmg.nr_of_vtss).flatMap (fun v =>
    (List.range vmg.nr_of_srpts).filterMap (fun t =>
      if (vmg.title t).title_set_nr = v + 1 then some (v + 1, t) else none))

/-- The longest-title accumulator of the DVD loop:
`if (longest_title_length_ms <= title_length_ms) update` — `<=`, so a later
scan entry reaching the running maximum replaces the earlier one. -/
def selLastMax : List (ℕ × ℕ) → ℕ × ℕ → ℕ × ℕ
  | [], acc => acc
  | (t, d) :: rest, (b, m) =>
    selLastMax rest (if m ≤ d then (t, d) else (b, m))

/-- The body of the enumeration double loop: a failed `ifoOpen` aborts with
`AVERROR(ENOMEM)`; missing `vtsi_mat`/`vts_pgcit` or an out-of-bounds
`vts_ttn` skip the title; otherwise the longest-title accumulator is fed. -/
def dvdEnumLoop (vmg : VmgIfo) (vts_ifos : ℕ → VtsIfo) :
    List (ℕ × ℕ) → ℕ × ℕ → Except ℤ (ℕ × ℕ)
  | [], acc => .ok acc
  | (v, t) :: rest, acc =>
    if ¬ (vts_ifos v).open_ok then .error AVERROR_ENOMEM
    else if ¬ (vts_ifos v).info_ok then dvdEnumLoop vmg vts_ifos rest acc
    else if (vmg.title t).vts_ttn < 1 ∨ (vmg.title t).vts_ttn > vmg.nr_of_srpts then
      dvdEnumLoop vmg vts_ifos rest acc
    else
      let ms := ff_dvd_get_title_set_length (vts_ifos v) vmg t
      dvdEnumLoop vmg vts_ifos rest (if acc.2 ≤ ms then (t, ms) else acc)

/-- The scan entries that feed the longest-title accumulator, with their
computed lengths: the title qualifies when its title set has the needed
tables and its `vts_ttn` is within `[1, nr_of_srpts]`. -/
def dvdQualify (vmg : VmgIfo) (vts_ifos : ℕ → VtsIfo) (l : List (ℕ × ℕ)) :
    List (ℕ × ℕ) :=
  l.filterMap (fun p =>
    if (vts_ifos p.1).info_ok = true ∧
       ¬ ((vmg.title p.2).vts_ttn < 1 ∨ (vmg.title p.2).vts_ttn > vmg.nr_of_srpts) then
      some (p.2, ff_dvd_get_title_set_length (vts_ifos p.1) vmg p.2)
    else none)

/-- The title number `dvd_url_open` settles on once the enumeration loop has
run: the longest-title accumulator's result for automatic selection
(`title_nr < 0`), the explicit id otherwise. -/
def dvdSelTitle (vmg : VmgIfo) (vts_ifos : ℕ → VtsIfo) (title_nr : ℤ) (li : ℕ) : ℤ :=
  if title_nr < 0
  then (((selLastMax (dvdQualify vmg vts_ifos (dvdScanPairs vmg)) (li, 0)).1 : ℕ) : ℤ)
  else title_nr

/-- Outcome of `dvd_url_open`: the returned code, the title number left in
the context, whether the out-of-range-angle error message was emitted, and
the cursor produced by `ff_dvd_set_program_chain_info` on success. -/
structure DvdOpenResult where
  ret : ℤ
  title_nr : ℤ
  angle_logged : Bool
  cursor : Option DvdCursor

/-- `dvd_url_open`.  External results are parameters: `dvd_open_ok` for
`DVDOpen2`, `vmg_open_ok` for `ifoOpen(dvd, 0)`, `vts_ifos v` for
`ifoOpen(dvd, v)` and its tables, `file_ok` for `DVDOpenFile`;
`longest_init` is the (uninitialized in C) starting value of
`longest_title_nr`.  `title_nr = -1` requests automatic selection. -/
def dvd_url_open (dvd_open_ok vmg_open_ok : Bool) (vmg : VmgIfo)
    (vts_ifos : ℕ → VtsIfo) (file_ok : Bool)
    (title_nr : ℤ) (angle_nr : ℕ) (longest_init : ℕ) : DvdOpenResult :=
  if ¬ dvd_open_ok then ⟨AVERROR_IO_ERR, title_nr, false, none⟩
  else if ¬ vmg_open_ok then ⟨AVERROR_IO_ERR, title_nr, false, none⟩
  else if title_nr ≥ (vmg.nr_of_srpts : ℤ) then ⟨AVERROR_EINVAL, title_nr, false, none⟩
  else
    match dvdEnumLoop vmg vts_ifos (dvdScanPairs vmg) (longest_init, 0) with
    | .error e => ⟨e, title_nr, false, none⟩
    | .ok (longest_title_nr, _) =>
      let tnr : ℤ := if title_nr < 0 then (longest_title_nr : ℤ) else title_nr
      let tsel := tnr.toNat
      if (vmg.title tsel).vts_ttn < 1 ∨ (vmg.title tsel).vts_ttn > vmg.nr_of_srpts then
        ⟨AVERROR_IO_ERR, tnr, false, none⟩
      else
        let logged := decide (0 < angle_nr ∧ (vmg.title tsel).nr_of_angles ≤ angle_nr)
        let title_set_nr := (vmg.title tsel).title_set_nr
        if ¬ (vts_ifos title_set_nr).open_ok then ⟨AVERROR_ENOMEM, tnr, logged, none⟩
        else if ¬ file_ok then ⟨AVERROR_IO_ERR, tnr, logged, none⟩
        else ⟨0, tnr, logged,
              some (ff_dvd_set_program_chain_info vmg (vts_ifos title_set_nr) angle_nr tsel 0)⟩

/-! ### Blu-ray demuxer (bluraydec.c) -/

/-- The fields of `BLURAY_TITLE_INFO` used by `bluray_read_header`. -/
structure BdTitleInfo where
  idx : ℤ
  playlist : ℕ
  duration : ℕ
  chapter_count : ℕ

/-- The longest-playlist accumulator of `bluray_read_header`:
`if (pls_max_duration < info->duration) update` — strict `<`, so the first
scan entry reaching the maximum is kept. -/
def bdLongestLoop : List (ℤ × ℕ) → ℤ × ℕ → ℤ × ℕ
  | [], acc => acc
  | (i, d) :: rest, (b, m) =>
    bdLongestLoop rest (if m < d then (i, d) else (b, m))

/-- The `(idx, duration)` pairs seen by the title loop, in index order
(`bd_get_title_info(bd, i, 0)` for `i` from 0). -/
def bdScan (titles : ℕ → BdTitleInfo) (num : ℕ) : List (ℤ × ℕ) :=
  (List.range num).map (fun i => ((titles i).idx, (titles i).duration))

/-- The title-selection logic of `bluray_read_header` (lines 175-205):
an explicit non-negative `title` option wins; otherwise the disc-declared
main title when `bd_get_main_title` returned one (`>= 0`); otherwise the
longest-duration title found by the scan loop. -/
def bluraySelectTitle (titles : ℕ → BdTitleInfo) (num : ℕ)
    (main_title explicit longest_init : ℤ) : ℤ :=
  let longest := (bdLongestLoop (bdScan titles num) (longest_init, 0)).1
  if explicit < 0 then (if main_title ≥ 0 then main_title else longest) else explicit

/-- The decision prefix of `bluray_read_header`, through title and playlist
selection (lines 145-221); the remainder (chapters, stream table, embedded
mpegts demuxer) is outside the claims.  `alloc_ok` models
`avformat_alloc_context`, `find_ts_ok` models `av_find_input_format`,
`open_stream_ok` models `bd_open_stream`; `selectTitleOk`/`selectPlaylistOk`
model `bd_select_title`/`bd_select_playlist` returning `> 0`.  On success the
selected title index is returned. -/
def bluray_read_header_sel (alloc_ok find_ts_ok open_stream_ok : Bool)
    (num : ℕ) (titles : ℕ → BdTitleInfo) (main_title explicit longest_init : ℤ)
    (selectTitleOk : ℤ → Bool) (selectPlaylistOk : ℕ → Bool) : Except ℤ ℤ :=
  if ¬ alloc_ok then .error AVERROR_ENOMEM
  else if ¬ find_ts_ok then .error AVERROR_DEMUXER_NOT_FOUND
  else if ¬ open_stream_ok then .error AVERROR_IO_ERR
  else if num < 1 then .error AVERROR_IO_ERR
  else
    let t := bluraySelectTitle titles num main_title explicit longest_init
    if ¬ selectTitleOk t then .error AVERROR_IO_ERR
    else if ¬ selectPlaylistOk (titles t.toNat).playlist then .error AVERROR_IO_ERR
    else .ok t

/-! ### Blu-ray stream-bridge seek (bluray_seek_bd) -/

def SEEK_SET : ℤ := 0

def SEEK_CUR : ℤ := 1

def SEEK_END : ℤ := 2

def AVSEEK_SIZE : ℤ := 65536

/-- `bluray_seek_bd`.  `pos` is the backing library's stream position, only
changed through `bd_seek`, modelled by `bdSeek : offset → new position`
(`bd_seek` returns the position it seeked to); `titleSize` models
`bd_get_title_size`.  Returns `(result, new position)`. -/
def bluray_seek_bd (has_bd : Bool) (pos : ℤ) (offset whence : ℤ)
    (bdSeek : ℤ → ℤ) (titleSize : ℤ) : ℤ × ℤ :=
  if ¬ has_bd then (AVERROR_EFAULT, pos)
  else if whence = SEEK_SET ∨ whence = SEEK_CUR ∨ whence = SEEK_END then
    (bdSeek offset, bdSeek offset)
  else if whence = AVSEEK_SIZE then (titleSize, pos)
  else (AVERROR_EINVAL, pos)

/-! ### Concrete discs used as witnesses and counterexamples -/

/-- A one-cell PGC: cell 0 covers sectors `[0, 10)`. -/
def pgcEx1 : Pgc :=
  { nr_of_cells := 1
    cell_playback := fun _ => ⟨BlockType.normal, 0, 10⟩
    program_map := fun _ => 1
    playback_hour := 0
    playback_minute := 0
    playback_second := 0 }

/-- A three-cell PGC with no angle blocks. -/
def pgcNoAngle3 : Pgc :=
  { nr_of_cells := 3
    cell_playback := fun i =>
      if i = 0 then ⟨BlockType.normal, 0, 9⟩
      else if i = 1 then ⟨BlockType.normal, 10, 19⟩
      else ⟨BlockType.normal, 20, 29⟩
    program_map := fun _ => 1
    playback_hour := 0
    playback_minute := 0
    playback_second := 0 }

/-- A PGC with a three-member angle block (cells 1-3) between normal cells. -/
def pgcAngle5 : Pgc :=
  { nr_of_cells := 5
    cell_playback := fun i =>
      if i = 0 then ⟨BlockType.normal, 0, 99⟩
      else if i = 1 then ⟨BlockType.angleBlock, 100, 149⟩
      else if i = 2 then ⟨BlockType.angleBlock, 150, 199⟩
      else if i = 3 then ⟨BlockType.lastCell, 200, 249⟩
      else ⟨BlockType.normal, 250, 299⟩
    program_map := fun _ => 1
    playback_hour := 0
    playback_minute := 0
    playback_second := 0 }

/-- A read cursor inside `pgcEx1` with one sector left in the cell
(`current_sector = 9`, `end_sector = 10`). -/
def ctxEx1 : DvdCtx :=
  { angle_nr := 0
    current_pgc := pgcEx1
    current_cell := 0
    start_sector := 0
    current_sector := 9
    end_sector := 10 }

/-- A healthy title-set ifo. -/
def vtsIfoEx : VtsIfo :=
  { open_ok := true
    info_ok := true
    ptt := fun _ _ => ⟨1, 1⟩
    pgc := fun _ => pgcEx1 }

/-- A healthy one-title disc: the single title lives in title set 1, has
`vts_ttn = 1` and declares one angle. -/
def vmgEx1 : VmgIfo :=
  { nr_of_vtss := 1
    nr_of_srpts := 1
    title := fun _ => ⟨1, 1, 1, 1⟩ }

/-- A two-title disc whose title 0 has a dangling `vts_ttn = 5` (out of the
valid range `[1, 2]`) while title 1 is healthy. -/
def vmgEx2 : VmgIfo :=
  { nr_of_vtss := 1
    nr_of_srpts := 2
    title := fun t => if t = 0 then ⟨1, 5, 1, 1⟩ else ⟨1, 1, 1, 1⟩ }

/-- A one-title disc whose only title has a dangling `vts_ttn = 3`. -/
def vmgEx3 : VmgIfo :=
  { nr_of_vtss := 1
    nr_of_srpts := 1
    title := fun _ => ⟨1, 3, 1, 1⟩ }

/-- A two-title disc where both titles are healthy and have equal playback
length, exercising the DVD `<=` tie-break. -/
def vmgEx4 : VmgIfo :=
  { nr_of_vtss := 1
    nr_of_srpts := 2
    title := fun _ => ⟨1, 1, 1, 1⟩ }

/-- Three Blu-ray titles with durations 600, 1200, 900 (spec section 8's
example) and distinct playlist numbers. -/
def bdTitlesEx : ℕ → BdTitleInfo := fun i =>
  if i = 0 then ⟨0, 11, 600, 3⟩
  else if i = 1 then ⟨1, 22, 1200, 4⟩
  else ⟨2, 33, 900, 5⟩

/-! ### Helper lemmas -/

/-- Behaviour of the fast-forward loop with enough fuel: the result is at or
after the start, every index strictly before it was scanned past (in bounds
and not a last-cell marker), and when the result is in bounds it carries the
last-cell marker. -/
theorem ffwdAux_spec (pgc : Pgc) :
    ∀ fuel i, pgc.nr_of_cells ≤ i + fuel →
      i ≤ ffwdAux pgc fuel i ∧
      (∀ k, i ≤ k → k < ffwdAux pgc fuel i →
        k < pgc.nr_of_cells ∧ (pgc.cell_playback k).block_type ≠ BlockType.lastCell) ∧
      (ffwdAux pgc fuel i < pgc.nr_of_cells →
        (pgc.cell_playback (ffwdAux pgc fuel i)).block_type = BlockType.lastCell) ∧
      (i ≤ pgc.nr_of_cells → ffwdAux pgc fuel i ≤ pgc.nr_of_cells) := by
  intro fuel
  induction fuel with
  | zero =>
    intro i hn
    simp only [ffwdAux]
    exact ⟨le_refl i, fun k h1 h2 => absurd h2 (by omega), fun h => absurd h (by omega),
           fun h => h⟩
  | succ f ih =>
    intro i hn
    by_cases hc : i < pgc.nr_of_cells ∧ (pgc.cell_playback i).block_type ≠ BlockType.lastCell
    · have heq : ffwdAux pgc (f + 1) i = ffwdAux pgc f (i + 1) := by
        simp only [ffwdAux, if_pos hc]
      obtain ⟨ha, hb, hm, hd⟩ := ih (i + 1) (by omega)
      rw [heq]
      refine ⟨by omega, ?_, hm, fun _ => hd (by omega)⟩
      intro k hik hk
      rcases Nat.eq_or_lt_of_le hik with hek | hlt
      · exact hek ▸ hc
      · exact hb k hlt hk
    · have heq : ffwdAux pgc (f + 1) i = i := by
        simp only [ffwdAux, if_neg hc]
      rw [heq]
      refine ⟨le_refl i, fun k h1 h2 => absurd h2 (by omega), ?_, fun h => h⟩
      intro hi
      rcases not_and_or.mp hc with h | h
      · omega
      · exact not_not.mp h

/-- The DVD longest-title accumulator (`<=` update) either sees nothing at or
above the running maximum and returns the accumulator, or returns an element
of the list that every entry is bounded by and every entry after it is
strictly below: the last entry reaching the maximum. -/
theorem selLastMax_char :
    ∀ (l : List (ℕ × ℕ)) (b m : ℕ),
      ((∀ y ∈ l, y.2 < m) ∧ selLastMax l (b, m) = (b, m)) ∨
      (∃ l1 x l2, l = l1 ++ x :: l2 ∧ selLastMax l (b, m) = x ∧ m ≤ x.2 ∧
        (∀ y ∈ l, y.2 ≤ x.2) ∧ (∀ y ∈ l2, y.2 < x.2)) := by
  intro l
  induction l with
  | nil =>
    intro b m
    left
    exact ⟨by simp, rfl⟩
  | cons hd tl ih =>
    obtain ⟨t, d⟩ := hd
    intro b m
    by_cases h : m ≤ d
    · have heq : selLastMax ((t, d) :: tl) (b, m) = selLastMax tl (t, d) := by
        simp only [selLastMax, if_pos h]
      rcases ih t d with ⟨hall, hres⟩ | ⟨l1, x, l2, hsplit, hres, hle, hmax, hafter⟩
      · right
        refine ⟨[], (t, d), tl, by simp, by rw [heq, hres], h, ?_, hall⟩
        intro y hy
        rcases List.mem_cons.mp hy with hek | hy2
        · rw [hek]
        · exact le_of_lt (hall y hy2)
      · right
        refine ⟨(t, d) :: l1, x, l2, by rw [hsplit, List.cons_append],
                by rw [heq, hres], le_trans h hle, ?_, hafter⟩
        intro y hy
        rcases List.mem_cons.mp hy with hek | hy2
        · rw [hek]; exact hle
        · exact hmax y hy2
    · have heq : selLastMax ((t, d) :: tl) (b, m) = selLastMax tl (b, m) := by
        simp only [selLastMax, if_neg h]
      rcases ih b m with ⟨hall, hres⟩ | ⟨l1, x, l2, hsplit, hres, hle, hmax, hafter⟩
      · left
        refine ⟨?_, by rw [heq, hres]⟩
        intro y hy
        rcases List.mem_cons.mp hy with hek | hy2
        · rw [hek]; omega
        · exact hall y hy2
      · right
        refine ⟨(t, d) :: l1, x, l2, by rw [hsplit, List.cons_append],
                by rw [heq, hres], hle, ?_, hafter⟩
        intro y hy
        rcases List.mem_cons.mp hy with hek | hy2
        · rw [hek]; show d ≤ x.2; omega
        · exact hmax y hy2

/-- The Blu-ray longest-playlist accumulator (strict `<` update) either sees
nothing above the running maximum and returns the accumulator, or returns an
element of the list that every entry is bounded by and every entry before it
is strictly below: the first entry reaching the maximum. -/
theorem bdLongestLoop_char :
    ∀ (l : List (ℤ × ℕ)) (b : ℤ) (m : ℕ),
      ((∀ y ∈ l, y.2 ≤ m) ∧ bdLongestLoop l (b, m) = (b, m)) ∨
      (∃ l1 x l2, l = l1 ++ x :: l2 ∧ bdLongestLoop l (b, m) = x ∧ m < x.2 ∧
        (∀ y ∈ l1, y.2 < x.2) ∧ (∀ y ∈ l, y.2 ≤ x.2)) := by
  intro l
  induction l with
  | nil =>
    intro b m
    left
    exact ⟨by simp, rfl⟩
  | cons hd tl ih =>
    obtain ⟨t, d⟩ := hd
    intro b m
    by_cases h : m < d
    · have heq : bdLongestLoop ((t, d) :: tl) (b, m) = bdLongestLoop tl (t, d) := by
        simp only [bdLongestLoop, if_pos h]
      rcases ih t d with ⟨hall, hres⟩ | ⟨l1, x, l2, hsplit, hres, hlt, hbefore, hmax⟩
      · right
        refine ⟨[], (t, d), tl, by simp, by rw [heq, hres], h, by simp, ?_⟩
        intro y hy
        rcases List.mem_cons.mp hy with hek | hy2
        · rw [hek]
        · exact hall y hy2
      · right
        refine ⟨(t, d) :: l1, x, l2, by rw [hsplit, List.cons_append],
                by rw [heq, hres], lt_trans h hlt, ?_, ?_⟩
        · intro y hy
          rcases List.mem_cons.mp hy with hek | hy2
          · rw [hek]; exact hlt
          · exact hbefore y hy2
        · intro y hy
          rcases List.mem_cons.mp hy with hek | hy2
          · rw [hek]; exact le_of_lt hlt
          · exact hmax y hy2
    · have heq : bdLongestLoop ((t, d) :: tl) (b, m) = bdLongestLoop tl (b, m) := by
        simp only [bdLongestLoop, if_neg h]
      rcases ih b m with ⟨hall, hres⟩ | ⟨l1, x, l2, hsplit, hres, hlt, hbefore, hmax⟩
      · left
        refine ⟨?_, by rw [heq, hres]⟩
        intro y hy
        rcases List.mem_cons.mp hy with hek | hy2
        · rw [hek]; omega
        · exact hall y hy2
      · right
        refine ⟨(t, d) :: l1, x, l2, by rw [hsplit, List.cons_append],
                by rw [heq, hres], hlt, ?_, ?_⟩
        · intro y hy
          rcases List.mem_cons.mp hy with hek | hy2
          · rw [hek]; show d < x.2; omega
          · exact hbefore y hy2
        · intro y hy
          rcases List.mem_cons.mp hy with hek | hy2
          · rw [hek]; show d ≤ x.2; omega
          · exact hmax y hy2

/-- When every `ifoOpen` in the scan succeeds, the enumeration loop is the
longest-title accumulator run over the qualifying entries. -/
theorem dvdEnumLoop_eq (vmg : VmgIfo) (vts_ifos : ℕ → VtsIfo) :
    ∀ (l : List (ℕ × ℕ)) (acc : ℕ × ℕ),
      (∀ p ∈ l, (vts_ifos p.1).open_ok = true) →
      dvdEnumLoop vmg vts_ifos l acc =
        .ok (selLastMax (dvdQualify vmg vts_ifos l) acc) := by
  intro l
  induction l with
  | nil =>
    intro acc h
    rfl
  | cons hd tl ih =>
    obtain ⟨v, t⟩ := hd
    intro acc h
    obtain ⟨b, m⟩ := acc
    have hv : (vts_ifos v).open_ok = true := h (v, t) (by simp)
    have htl : ∀ p ∈ tl, (vts_ifos p.1).open_ok = true :=
      fun p hp => h p (List.mem_cons_of_mem _ hp)
    by_cases hinfo : (vts_ifos v).info_ok = true
    · by_cases httn : (vmg.title t).vts_ttn < 1 ∨ (vmg.title t).vts_ttn > vmg.nr_of_srpts
      · have h1 : dvdEnumLoop vmg vts_ifos ((v, t) :: tl) (b, m) =
            dvdEnumLoop vmg vts_ifos tl (b, m) := by
          simp only [dvdEnumLoop, hv, hinfo, if_pos httn]
          simp
        have h2 : dvdQualify vmg vts_ifos ((v, t) :: tl) = dvdQualify vmg vts_ifos tl := by
          simp only [dvdQualify, List.filterMap_cons]
          rw [if_neg (by exact fun hq => hq.2 httn)]
        rw [h1, h2]
        exact ih (b, m) htl
      · have h1 : dvdEnumLoop vmg vts_ifos ((v, t) :: tl) (b, m) =
            dvdEnumLoop vmg vts_ifos tl
              (if m ≤ ff_dvd_get_title_set_length (vts_ifos v) vmg t
               then (t, ff_dvd_get_title_set_length (vts_ifos v) vmg t) else (b, m)) := by
          simp only [dvdEnumLoop, hv, hinfo, if_neg httn]
          simp
        have h2 : dvdQualify vmg vts_ifos ((v, t) :: tl) =
            (t, ff_dvd_get_title_set_length (vts_ifos v) vmg t) :: dvdQualify vmg vts_ifos tl := by
          simp only [dvdQualify, List.filterMap_cons]
          rw [if_pos ⟨hinfo, httn⟩]
        rw [h1, h2]
        have h3 : selLastMax ((t, ff_dvd_get_title_set_length (vts_ifos v) vmg t) ::
              dvdQualify vmg vts_ifos tl) (b, m) =
            selLastMax (dvdQualify vmg vts_ifos tl)
              (if m ≤ ff_dvd_get_title_set_length (vts_ifos v) vmg t
               then (t, ff_dvd_get_title_set_length (vts_ifos v) vmg t) else (b, m)) := by
          simp only [selLastMax]
        rw [h3]
        exact ih _ htl
    · have h1 : dvdEnumLoop vmg vts_ifos ((v, t) :: tl) (b, m) =
          dvdEnumLoop vmg vts_ifos tl (b, m) := by
        simp only [dvdEnumLoop, hv, hinfo]
        simp
      have h2 : dvdQualify vmg vts_ifos ((v, t) :: tl) = dvdQualify vmg vts_ifos tl := by
        simp only [dvdQualify, List.filterMap_cons]
        rw [if_neg (by exact fun hq => hinfo hq.1)]
      rw [h1, h2]
      exact ih (b, m) htl

/-- Unfolding of `dvd_url_read` when the boundary step finds a cell. -/
theorem dvd_url_read_ok (ctx : DvdCtx) (size : ℕ) (rb : ℕ → ℕ → ℤ) (c : DvdCtx)
    (h : dvd_cell_step ctx = .ok c) :
    dvd_url_read ctx size rb =
      (if rb c.current_sector (size / DVD_SECTOR_SIZE) ≤ 0 then (AVERROR_IO_ERR, c)
       else (rb c.current_sector (size / DVD_SECTOR_SIZE) * (DVD_SECTOR_SIZE : ℤ),
             { c with current_sector :=
                 c.current_sector + (rb c.current_sector (size / DVD_SECTOR_SIZE)).toNat })) := by
  unfold dvd_url_read
  rw [h]

/-- Unfolding of `dvd_url_read` at end of title. -/
theorem dvd_url_read_error (ctx : DvdCtx) (size : ℕ) (rb : ℕ → ℕ → ℤ) (c : DvdCtx)
    (h : dvd_cell_step ctx = .error c) :
    dvd_url_read ctx size rb = (AVERROR_EOF, c) := by
  unfold dvd_url_read
  rw [h]

/-! ### C1 -/

/-- C1 (counterexample): with one sector left in the current cell
(`end_sector - current_sector = 1`) and a 4096-byte request (2 sectors),
`dvd_url_read` returns 4096 bytes, not the remaining cell's 2048 bytes: the
block count handed to the reader is never clamped to the cell boundary, so
the read spans past the current unit. The reader here returns every
requested block, as the sector-source contract allows. -/
theorem c1_read_crosses_cell_boundary :
    4096 / DVD_SECTOR_SIZE > ctxEx1.end_sector - ctxEx1.current_sector ∧
    (dvd_url_read ctxEx1 4096 (fun _ k => (k : ℤ))).1 = 4096 ∧
    (dvd_url_read ctxEx1 4096 (fun _ k => (k : ℤ))).1 ≠
      ((ctxEx1.end_sector - ctxEx1.current_sector : ℕ) : ℤ) * 2048 := by
  refine ⟨by decide, by decide, by decide⟩

/-- C1 (amended): for any read that reaches the block reader (the boundary
step yields a cell) and gets a positive block count back, `dvd_url_read`
requests `size / 2048` blocks as-is — with no clamp to
`end_sector - current_sector` — returns exactly `blocks_got * 2048` bytes
for whatever `blocks_got` the reader delivered, and advances
`current_sector` by exactly `blocks_got`, even when the request covers more
sectors than remain in the cell. -/
theorem c1_read_returns_reader_blocks (ctx : DvdCtx) (size : ℕ) (rb : ℕ → ℕ → ℤ)
    (c : DvdCtx) (hstep : dvd_cell_step ctx = .ok c)
    (hpos : 0 < rb c.current_sector (size / DVD_SECTOR_SIZE)) :
    dvd_url_read ctx size rb =
      (rb c.current_sector (size / DVD_SECTOR_SIZE) * 2048,
       { c with current_sector :=
           c.current_sector + (rb c.current_sector (size / DVD_SECTOR_SIZE)).toNat }) := by
  rw [dvd_url_read_ok ctx size rb c hstep,
      if_neg (by omega : ¬ rb c.current_sector (size / DVD_SECTOR_SIZE) ≤ 0)]
  norm_num [DVD_SECTOR_SIZE]

/-- C1 (witness for the amended theorem): the counterexample cursor, a
4096-byte request and a full-delivery reader give back 4096 bytes and move
`current_sector` from 9 to 11. -/
theorem c1_read_returns_reader_blocks_witness :
    dvd_url_read ctxEx1 4096 (fun _ k => (k : ℤ)) =
      (2 * 2048, { ctxEx1 with current_sector := 11 }) := by
  have h := c1_read_returns_reader_blocks ctxEx1 4096 (fun _ k => (k : ℤ)) ctxEx1
    (by rfl) (by decide)
  simpa using h

/-! ### C9 -/

/-- C9: every successful (positive) return value of `dvd_url_read` is
`blocks_got * 2048` for some positive `blocks_got`, hence a multiple of the
2048-byte sector size; `current_sector` advances by exactly
`return / 2048` sectors from the position the read was issued at (the
boundary-resolved cursor `c`), and the count of sectors delivered from the
current cell, `current_sector - start_sector`, grows by exactly that
amount. -/
theorem c9_success_is_sector_multiple (ctx : DvdCtx) (size : ℕ) (rb : ℕ → ℕ → ℤ)
    (n : ℤ) (ctx2 : DvdCtx)
    (h : dvd_url_read ctx size rb = (n, ctx2)) (hn : 0 < n) :
    n % 2048 = 0 ∧
    ∃ c, dvd_cell_step ctx = .ok c ∧ 0 < n / 2048 ∧
      ctx2.current_sector = c.current_sector + (n / 2048).toNat ∧
      ctx2.start_sector = c.start_sector ∧ ctx2.end_sector = c.end_sector ∧
      (c.start_sector ≤ c.current_sector →
        ctx2.current_sector - ctx2.start_sector =
          (c.current_sector - c.start_sector) + (n / 2048).toNat) := by
  cases hstep : dvd_cell_step ctx with
  | error c =>
    rw [dvd_url_read_error ctx size rb c hstep] at h
    simp only [Prod.mk.injEq] at h
    rw [← h.1] at hn
    exact absurd hn (by decide)
  | ok c =>
    rw [dvd_url_read_ok ctx size rb c hstep] at h
    by_cases hbg : rb c.current_sector (size / DVD_SECTOR_SIZE) ≤ 0
    · rw [if_pos hbg] at h
      simp only [Prod.mk.injEq] at h
      rw [← h.1] at hn
      exact absurd hn (by decide)
    · rw [if_neg hbg] at h
      simp only [Prod.mk.injEq] at h
      obtain ⟨h1, h2⟩ := h
      have hcast : ((DVD_SECTOR_SIZE : ℕ) : ℤ) = 2048 := by norm_num [DVD_SECTOR_SIZE]
      rw [hcast] at h1
      have hv : n / 2048 = rb c.current_sector (size / DVD_SECTOR_SIZE) := by
        rw [← h1]
        exact Int.mul_ediv_cancel _ (by norm_num)
      refine ⟨by rw [← h1]; exact Int.mul_emod_left _ _, c, rfl,
              by rw [hv]; omega, ?_, ?_, ?_, ?_⟩
      · rw [← h2, hv]
      · rw [← h2]
      · rw [← h2]
      · intro hle
        rw [← h2, hv]
        have hge : c.start_sector ≤ c.current_sector := hle
        generalize (rb c.current_sector (size / DVD_SECTOR_SIZE)).toNat = a
        show c.current_sector + a - c.start_sector = c.current_sector - c.start_sector + a
        omega

/-- C9 (witness): a 2048-byte read from `ctxEx1` with a full-delivery reader
returns 2048 bytes and moves `current_sector` from 9 to 10, one sector into
the cell's tally. -/
theorem c9_success_is_sector_multiple_witness :
    (2048 : ℤ) % 2048 = 0 ∧
    ∃ c, dvd_cell_step ctxEx1 = .ok c ∧ 0 < (2048 : ℤ) / 2048 ∧
      ({ ctxEx1 with current_sector := 10 } : DvdCtx).current_sector =
        c.current_sector + ((2048 : ℤ) / 2048).toNat ∧
      ({ ctxEx1 with current_sector := 10 } : DvdCtx).start_sector = c.start_sector ∧
      ({ ctxEx1 with current_sector := 10 } : DvdCtx).end_sector = c.end_sector ∧
      (c.start_sector ≤ c.current_sector →
        ({ ctxEx1 with current_sector := 10 } : DvdCtx).current_sector -
            ({ ctxEx1 with current_sector := 10 } : DvdCtx).start_sector =
          (c.current_sector - c.start_sector) + ((2048 : ℤ) / 2048).toNat) :=
  c9_success_is_sector_multiple ctxEx1 2048 (fun _ k => (k : ℤ))
    2048 { ctxEx1 with current_sector := 10 } (by rfl) (by decide)

/-! ### C10 -/

/-- C10: a request of fewer than 2048 bytes yields a whole-sector count of
zero; provided the block reader never returns more blocks than requested,
such a read that reaches the reader (the boundary step yields a cell) fails
with `AVERROR(EIO)` rather than returning zero bytes; and any successful read
whatsoever returns at least one full 2048-byte sector. -/
theorem c10_subsector_request_fails (ctx : DvdCtx) (size : ℕ) (rb : ℕ → ℕ → ℤ)
    (hsize : size < DVD_SECTOR_SIZE)
    (hrb : ∀ s k, rb s k ≤ (k : ℤ)) :
    size / DVD_SECTOR_SIZE = 0 ∧
    (∀ c, dvd_cell_step ctx = .ok c → (dvd_url_read ctx size rb).1 = AVERROR_IO_ERR) ∧
    (∀ (ctx2 : DvdCtx) (size2 : ℕ) (rb2 : ℕ → ℕ → ℤ),
      0 < (dvd_url_read ctx2 size2 rb2).1 → 2048 ≤ (dvd_url_read ctx2 size2 rb2).1) := by
  have hz : size / DVD_SECTOR_SIZE = 0 := Nat.div_eq_of_lt hsize
  refine ⟨hz, ?_, ?_⟩
  · intro c hc
    rw [dvd_url_read_ok ctx size rb c hc, hz,
        if_pos (by simpa using hrb c.current_sector 0)]
  · intro ctx2 size2 rb2
    cases hstep : dvd_cell_step ctx2 with
    | error c =>
      rw [dvd_url_read_error ctx2 size2 rb2 c hstep]
      intro hpos
      have hno : ¬ (0 : ℤ) < AVERROR_EOF := by decide
      exact absurd hpos hno
    | ok c =>
      rw [dvd_url_read_ok ctx2 size2 rb2 c hstep]
      by_cases hbg : rb2 c.current_sector (size2 / DVD_SECTOR_SIZE) ≤ 0
      · rw [if_pos hbg]
        intro hpos
        have hno : ¬ (0 : ℤ) < AVERROR_IO_ERR := by decide
        exact absurd hpos hno
      · rw [if_neg hbg]
        intro hpos
        show (2048 : ℤ) ≤ rb2 c.current_sector (size2 / DVD_SECTOR_SIZE) * (DVD_SECTOR_SIZE : ℤ)
        have h1 : 1 ≤ rb2 c.current_sector (size2 / DVD_SECTOR_SIZE) := by omega
        have h2 := mul_le_mul_of_nonneg_right h1
          (by norm_num [DVD_SECTOR_SIZE] : (0 : ℤ) ≤ (DVD_SECTOR_SIZE : ℤ))
        rw [one_mul] at h2
        calc (2048 : ℤ) = (DVD_SECTOR_SIZE : ℤ) := by norm_num [DVD_SECTOR_SIZE]
          _ ≤ _ := h2

/-- C10 (witness): a 100-byte request on `ctxEx1` with a reader that honours
the requested count computes zero whole sectors and fails with
`AVERROR(EIO)`; a successful 2048-byte read returns at least 2048 bytes. -/
theorem c10_subsector_request_fails_witness :
    (100 : ℕ) / DVD_SECTOR_SIZE = 0 ∧
    (∀ c, dvd_cell_step ctxEx1 = .ok c →
      (dvd_url_read ctxEx1 100 (fun _ k => (k : ℤ))).1 = AVERROR_IO_ERR) ∧
    (∀ (ctx2 : DvdCtx) (size2 : ℕ) (rb2 : ℕ → ℕ → ℤ),
      0 < (dvd_url_read ctx2 size2 rb2).1 → 2048 ≤ (dvd_url_read ctx2 size2 rb2).1) :=
  c10_subsector_request_fails ctxEx1 100 (fun _ k => (k : ℤ))
    (by decide) (fun s k => le_refl _)

/-! ### C5 -/

/-- Outside an angle block, `ff_dvd_get_next_cell` proposes `current + 1`,
or end-of-title when that falls outside the chain. -/
theorem next_cell_no_angle (pgc : Pgc) (angle cur : ℕ)
    (h : (pgc.cell_playback cur).block_type ≠ BlockType.angleBlock) :
    (ff_dvd_get_next_cell pgc cur angle).1 =
      if cur + 1 < pgc.nr_of_cells then some (cur + 1) else none := by
  simp only [ff_dvd_get_next_cell, if_neg h]
  by_cases hlt : cur + 1 ≥ pgc.nr_of_cells
  · rw [if_pos hlt, if_neg (by omega : ¬ cur + 1 < pgc.nr_of_cells)]
  · rw [if_neg hlt, if_pos (by omega : cur + 1 < pgc.nr_of_cells)]

/-- One step of the walk when the next cell exists. -/
theorem dvdTraj_cons (pgc : Pgc) (angle fuel i : ℕ)
    (h : (ff_dvd_get_next_cell pgc i angle).1 = some (i + 1)) :
    dvdTraj pgc angle (fuel + 1) i = i :: dvdTraj pgc angle fuel (i + 1) := by
  simp only [dvdTraj, h]

/-- Final step of the walk at end of title. -/
theorem dvdTraj_last (pgc : Pgc) (angle fuel i : ℕ)
    (h : (ff_dvd_get_next_cell pgc i angle).1 = none) :
    dvdTraj pgc angle (fuel + 1) i = [i] := by
  simp only [dvdTraj, h]

/-- C5: `ff_dvd_get_next_cell` (a) returns exactly `current + 1` outside an
angle block, `none` when that reaches the cell count; (b) from an
angle-block member it fast-forwards linearly to the first last-cell marker
at or after the current cell — every index skipped over is a non-last cell —
then advances by one, returning `none` when the result reaches the cell
count; and (c) on a chain with no angle blocks the walk from cell 0 visits
every cell exactly once in order and ends with `none` after the last
cell. -/
theorem c5_next_unit_traversal (pgc : Pgc) (angle : ℕ) :
    (∀ cur, (pgc.cell_playback cur).block_type ≠ BlockType.angleBlock →
      (ff_dvd_get_next_cell pgc cur angle).1 =
        if cur + 1 < pgc.nr_of_cells then some (cur + 1) else none) ∧
    (∀ cur, cur < pgc.nr_of_cells →
      (pgc.cell_playback cur).block_type = BlockType.angleBlock →
      ∃ j, cur ≤ j ∧ j ≤ pgc.nr_of_cells ∧
        (∀ k, cur ≤ k → k < j →
          (pgc.cell_playback k).block_type ≠ BlockType.lastCell) ∧
        (j < pgc.nr_of_cells → (pgc.cell_playback j).block_type = BlockType.lastCell) ∧
        (ff_dvd_get_next_cell pgc cur angle).1 =
          if j + 1 < pgc.nr_of_cells then some (j + 1) else none) ∧
    ((∀ i, (pgc.cell_playback i).block_type ≠ BlockType.angleBlock) →
      0 < pgc.nr_of_cells →
      dvdTraj pgc angle pgc.nr_of_cells 0 = List.range pgc.nr_of_cells ∧
      (ff_dvd_get_next_cell pgc (pgc.nr_of_cells - 1) angle).1 = none) := by
  refine ⟨fun cur h => next_cell_no_angle pgc angle cur h, ?_, ?_⟩
  · intro cur hcur hbt
    obtain ⟨ha, hb, hm, hd⟩ :=
      ffwdAux_spec pgc (pgc.nr_of_cells - cur) cur (by omega)
    refine ⟨ffwdToLastCell pgc cur, ha, hd (by omega),
            fun k h1 h2 => (hb k h1 h2).2, hm, ?_⟩
    simp only [ff_dvd_get_next_cell, if_pos hbt]
    by_cases hlt : ffwdToLastCell pgc cur + 1 ≥ pgc.nr_of_cells
    · rw [if_pos hlt, if_neg (by omega : ¬ ffwdToLastCell pgc cur + 1 < pgc.nr_of_cells)]
    · rw [if_neg hlt, if_pos (by omega : ffwdToLastCell pgc cur + 1 < pgc.nr_of_cells)]
  · intro hnone hn
    have key : ∀ k i, i + k = pgc.nr_of_cells →
        dvdTraj pgc angle k i = List.range' i k := by
      intro k
      induction k with
      | zero => intro i h; rfl
      | succ k2 ih =>
        intro i h
        cases k2 with
        | zero =>
          have hnext : (ff_dvd_get_next_cell pgc i angle).1 = none := by
            rw [next_cell_no_angle pgc angle i (hnone i),
                if_neg (by omega : ¬ i + 1 < pgc.nr_of_cells)]
          rw [dvdTraj_last pgc angle 0 i hnext]
          rfl
        | succ k3 =>
          have hnext : (ff_dvd_get_next_cell pgc i angle).1 = some (i + 1) := by
            rw [next_cell_no_angle pgc angle i (hnone i),
                if_pos (by omega : i + 1 < pgc.nr_of_cells)]
          rw [dvdTraj_cons pgc angle (k3 + 1) i hnext, ih (i + 1) (by omega)]
          rfl
    refine ⟨?_, ?_⟩
    · rw [key pgc.nr_of_cells 0 (by omega), List.range_eq_range']
    · rw [next_cell_no_angle pgc angle _ (hnone _),
          if_neg (by omega : ¬ pgc.nr_of_cells - 1 + 1 < pgc.nr_of_cells)]

/-- C5 (witness): on the three-cell no-angle chain the walk is `[0, 1, 2]`
ending in `none`, and on the angle chain cell 1 (an angle member) jumps over
its siblings to cell 4. -/
theorem c5_next_unit_traversal_witness :
    (ff_dvd_get_next_cell pgcNoAngle3 0 0).1 =
      (if 0 + 1 < pgcNoAngle3.nr_of_cells then some (0 + 1) else none) ∧
    (dvdTraj pgcNoAngle3 0 pgcNoAngle3.nr_of_cells 0 = List.range pgcNoAngle3.nr_of_cells ∧
      (ff_dvd_get_next_cell pgcNoAngle3 (pgcNoAngle3.nr_of_cells - 1) 0).1 = none) ∧
    (∃ j, 1 ≤ j ∧ j ≤ pgcAngle5.nr_of_cells ∧
      (∀ k, 1 ≤ k → k < j →
        (pgcAngle5.cell_playback k).block_type ≠ BlockType.lastCell) ∧
      (j < pgcAngle5.nr_of_cells → (pgcAngle5.cell_playback j).block_type = BlockType.lastCell) ∧
      (ff_dvd_get_next_cell pgcAngle5 1 1).1 =
        if j + 1 < pgcAngle5.nr_of_cells then some (j + 1) else none) :=
  ⟨(c5_next_unit_traversal pgcNoAngle3 0).1 0 (by decide),
   (c5_next_unit_traversal pgcNoAngle3 0).2.2
     (by intro i; simp only [pgcNoAngle3]; split_ifs <;> decide) (by decide),
   (c5_next_unit_traversal pgcAngle5 1).2.1 1 (by decide) (by decide)⟩

/-! ### C6 -/

/-- C6: `ff_dvd_set_program_chain_info` resolves the entry cell as
`program_map[pgn - 1] - 1` (1-based disc indices to 0-based), adds the
requested angle number when that cell heads an angle block — so with angle
offset A the resolved cell is member A of the block — and loads the cursor
with the resolved cell's `first_sector` (as both `start_sector` and
`current_sector`) and `last_sector` (as `end_sector`). -/
theorem c6_entry_cell_resolution (vmg : VmgIfo) (vts : VtsIfo)
    (angle title_nr ptt_nr : ℕ) :
    let p := vts.ptt ((vmg.title title_nr).vts_ttn - 1) ptt_nr
    let pgc := vts.pgc (p.pgcn - 1)
    let entry := pgc.program_map (p.pgn - 1) - 1
    let cell := if (pgc.cell_playback entry).block_type = BlockType.angleBlock
                then entry + angle else entry
    let r := ff_dvd_set_program_chain_info vmg vts angle title_nr ptt_nr
    r.current_pgc = pgc ∧ r.current_cell = cell ∧
    r.start_sector = (pgc.cell_playback cell).first_sector ∧
    r.current_sector = r.start_sector ∧
    r.end_sector = (pgc.cell_playback cell).last_sector := by
  exact ⟨rfl, rfl, rfl, rfl, rfl⟩

/-! ### C8 -/

/-- C8: `bluray_seek_bd` forwards `SEEK_SET`, `SEEK_CUR` and `SEEK_END` to
the disc library's byte-space seek primitive `bd_seek`; `AVSEEK_SIZE`
returns the total title byte length from `bd_get_title_size` without moving
the position; and every other whence value returns `AVERROR(EINVAL)` and
leaves the stream position unchanged. -/
theorem c8_seek_whence_dispatch (pos offset : ℤ) (bdSeek : ℤ → ℤ) (titleSize : ℤ) :
    bluray_seek_bd true pos offset SEEK_SET bdSeek titleSize =
      (bdSeek offset, bdSeek offset) ∧
    bluray_seek_bd true pos offset SEEK_CUR bdSeek titleSize =
      (bdSeek offset, bdSeek offset) ∧
    bluray_seek_bd true pos offset SEEK_END bdSeek titleSize =
      (bdSeek offset, bdSeek offset) ∧
    bluray_seek_bd true pos offset AVSEEK_SIZE bdSeek titleSize = (titleSize, pos) ∧
    (∀ w : ℤ, w ≠ SEEK_SET → w ≠ SEEK_CUR → w ≠ SEEK_END → w ≠ AVSEEK_SIZE →
      bluray_seek_bd true pos offset w bdSeek titleSize = (AVERROR_EINVAL, pos)) := by
  refine ⟨?_, ?_, ?_, ?_, ?_⟩
  · simp [bluray_seek_bd]
  · simp [bluray_seek_bd, SEEK_CUR, SEEK_SET, SEEK_END]
  · simp [bluray_seek_bd, SEEK_CUR, SEEK_SET, SEEK_END]
  · simp [bluray_seek_bd, SEEK_CUR, SEEK_SET, SEEK_END, AVSEEK_SIZE]
  · intro w h0 h1 h2 h3
    simp only [bluray_seek_bd]
    have hc : ¬ (w = SEEK_SET ∨ w = SEEK_CUR ∨ w = SEEK_END) := by
      rintro (hc | hc | hc)
      exacts [h0 hc, h1 hc, h2 hc]
    rw [if_neg (by simp), if_neg hc, if_neg h3]

/-- C8 (witness): concrete dispatch with position 7, offset 100, seek
primitive `x + 1` and title size 5; whence 9 is rejected with the position
untouched. -/
theorem c8_seek_whence_dispatch_witness :
    bluray_seek_bd true 7 100 SEEK_SET (fun x => x + 1) 5 = (101, 101) ∧
    bluray_seek_bd true 7 100 AVSEEK_SIZE (fun x => x + 1) 5 = (5, 7) ∧
    bluray_seek_bd true 7 100 9 (fun x => x + 1) 5 = (AVERROR_EINVAL, 7) := by
  obtain ⟨h0, h1, h2, h3, h4⟩ := c8_seek_whence_dispatch 7 100 (fun x => x + 1) 5
  exact ⟨h0, h3, h4 9 (by decide) (by decide) (by decide) (by decide)⟩

/-! ### dvd_url_open unfolding helpers -/

/-- Unfolding of `dvd_url_open` past the enumeration loop, when the outer
handles opened and the explicit-title bound check passes. -/
theorem dvd_url_open_sel (vmg : VmgIfo) (vts_ifos : ℕ → VtsIfo) (fok : Bool)
    (title_nr : ℤ) (angle li : ℕ)
    (ht : ¬ title_nr ≥ (vmg.nr_of_srpts : ℤ))
    (hscan : ∀ p ∈ dvdScanPairs vmg, (vts_ifos p.1).open_ok = true) :
    dvd_url_open true true vmg vts_ifos fok title_nr angle li =
      (if (vmg.title (dvdSelTitle vmg vts_ifos title_nr li).toNat).vts_ttn < 1 ∨
          (vmg.title (dvdSelTitle vmg vts_ifos title_nr li).toNat).vts_ttn >
            vmg.nr_of_srpts then
         ⟨AVERROR_IO_ERR, dvdSelTitle vmg vts_ifos title_nr li, false, none⟩
       else if ¬ (vts_ifos (vmg.title
             (dvdSelTitle vmg vts_ifos title_nr li).toNat).title_set_nr).open_ok then
         ⟨AVERROR_ENOMEM, dvdSelTitle vmg vts_ifos title_nr li,
          decide (0 < angle ∧
            (vmg.title (dvdSelTitle vmg vts_ifos title_nr li).toNat).nr_of_angles ≤ angle),
          none⟩
       else if ¬ fok then
         ⟨AVERROR_IO_ERR, dvdSelTitle vmg vts_ifos title_nr li,
          decide (0 < angle ∧
            (vmg.title (dvdSelTitle vmg vts_ifos title_nr li).toNat).nr_of_angles ≤ angle),
          none⟩
       else
         ⟨0, dvdSelTitle vmg vts_ifos title_nr li,
          decide (0 < angle ∧
            (vmg.title (dvdSelTitle vmg vts_ifos title_nr li).toNat).nr_of_angles ≤ angle),
          some (ff_dvd_set_program_chain_info vmg
            (vts_ifos (vmg.title
              (dvdSelTitle vmg vts_ifos title_nr li).toNat).title_set_nr) angle
            (dvdSelTitle vmg vts_ifos title_nr li).toNat 0)⟩) := by
  unfold dvd_url_open
  rcases hsel : selLastMax (dvdQualify vmg vts_ifos (dvdScanPairs vmg)) (li, 0) with ⟨a, b⟩
  rw [if_neg (show ¬ ¬ (true = true) by simp), if_neg (show ¬ ¬ (true = true) by simp),
      if_neg ht, dvdEnumLoop_eq vmg vts_ifos _ _ hscan, hsel]
  simp only [dvdSelTitle, hsel]

/-- The title number left in the context by `dvd_url_open` once the
enumeration has run: the longest title for automatic selection, the explicit
id otherwise — identical in every later branch. -/
theorem dvd_open_sel_title_nr (vmg : VmgIfo) (vts_ifos : ℕ → VtsIfo) (fok : Bool)
    (title_nr : ℤ) (angle li : ℕ)
    (ht : ¬ title_nr ≥ (vmg.nr_of_srpts : ℤ))
    (hscan : ∀ p ∈ dvdScanPairs vmg, (vts_ifos p.1).open_ok = true) :
    (dvd_url_open true true vmg vts_ifos fok title_nr angle li).title_nr =
      dvdSelTitle vmg vts_ifos title_nr li := by
  rw [dvd_url_open_sel vmg vts_ifos fok title_nr angle li ht hscan]
  split_ifs <;> rfl

/-! ### C2 -/

/-- C2: automatic title selection.  Blu-ray returns the disc-declared main
title when one is declared regardless of durations; with no main title it
returns the scan's first entry reaching the maximum duration (strict `<`
update).  The DVD path stores the scan's last entry reaching the maximum
playback length (`<=` update) as the selected title. -/
theorem c2_auto_title_selection :
    (∀ (titles : ℕ → BdTitleInfo) (num : ℕ) (main li : ℤ),
      0 ≤ main → bluraySelectTitle titles num main (-1) li = main) ∧
    (∀ (titles : ℕ → BdTitleInfo) (num : ℕ) (main li : ℤ),
      main < 0 → (∃ i, i < num ∧ 0 < (titles i).duration) →
      ∃ l1 x l2, bdScan titles num = l1 ++ x :: l2 ∧
        bluraySelectTitle titles num main (-1) li = x.1 ∧
        (∀ y ∈ l1, y.2 < x.2) ∧ (∀ y ∈ bdScan titles num, y.2 ≤ x.2)) ∧
    (∀ (vmg : VmgIfo) (vts_ifos : ℕ → VtsIfo) (fok : Bool) (angle li : ℕ),
      (∀ p ∈ dvdScanPairs vmg, (vts_ifos p.1).open_ok = true) →
      dvdQualify vmg vts_ifos (dvdScanPairs vmg) ≠ [] →
      ∃ l1 x l2, dvdQualify vmg vts_ifos (dvdScanPairs vmg) = l1 ++ x :: l2 ∧
        (dvd_url_open true true vmg vts_ifos fok (-1) angle li).title_nr = (x.1 : ℤ) ∧
        (∀ y ∈ dvdQualify vmg vts_ifos (dvdScanPairs vmg), y.2 ≤ x.2) ∧
        (∀ y ∈ l2, y.2 < x.2)) := by
  refine ⟨?_, ?_, ?_⟩
  · intro titles num main li hmain
    unfold bluraySelectTitle
    rw [if_pos (by norm_num : (-1 : ℤ) < 0), if_pos hmain]
  · intro titles num main li hmain hpos
    rcases bdLongestLoop_char (bdScan titles num) li 0 with
      ⟨hall, _⟩ | ⟨l1, x, l2, hsplit, hres, _, hbefore, hmax⟩
    · obtain ⟨i, hi, hdur⟩ := hpos
      have hmem : ((titles i).idx, (titles i).duration) ∈ bdScan titles num := by
        unfold bdScan
        exact List.mem_map.mpr ⟨i, List.mem_range.mpr hi, rfl⟩
      have hcontra := hall _ hmem
      simp only [] at hcontra
      omega
    · refine ⟨l1, x, l2, hsplit, ?_, hbefore, hmax⟩
      unfold bluraySelectTitle
      rw [hres, if_pos (by norm_num : (-1 : ℤ) < 0), if_neg (by omega : ¬ main ≥ 0)]
  · intro vmg vts_ifos fok angle li hscan hne
    rcases selLastMax_char (dvdQualify vmg vts_ifos (dvdScanPairs vmg)) li 0 with
      ⟨hall, _⟩ | ⟨l1, x, l2, hsplit, hres, _, hmax, hafter⟩
    · obtain ⟨y, hy⟩ := List.exists_mem_of_ne_nil _ hne
      exact absurd (hall y hy) (Nat.not_lt_zero _)
    · refine ⟨l1, x, l2, hsplit, ?_, hmax, hafter⟩
      rw [dvd_open_sel_title_nr vmg vts_ifos fok (-1) angle li (by omega) hscan]
      unfold dvdSelTitle
      rw [hres, if_pos (by norm_num : (-1 : ℤ) < 0)]

/-- C2 (witness): with the spec's durations `[600, 1200, 900]` and no main
title, Blu-ray auto-selection has a first-maximum split; a declared main
title 2 wins outright; and on a two-title DVD with equal lengths the
selection is the split's last maximum. -/
theorem c2_auto_title_selection_witness :
    bluraySelectTitle bdTitlesEx 3 2 (-1) 0 = 2 ∧
    (∃ l1 x l2, bdScan bdTitlesEx 3 = l1 ++ x :: l2 ∧
      bluraySelectTitle bdTitlesEx 3 (-1) (-1) 0 = x.1 ∧
      (∀ y ∈ l1, y.2 < x.2) ∧ (∀ y ∈ bdScan bdTitlesEx 3, y.2 ≤ x.2)) ∧
    (∃ l1 x l2, dvdQualify vmgEx4 (fun _ => vtsIfoEx) (dvdScanPairs vmgEx4) = l1 ++ x :: l2 ∧
      (dvd_url_open true true vmgEx4 (fun _ => vtsIfoEx) true (-1) 0 0).title_nr = (x.1 : ℤ) ∧
      (∀ y ∈ dvdQualify vmgEx4 (fun _ => vtsIfoEx) (dvdScanPairs vmgEx4), y.2 ≤ x.2) ∧
      (∀ y ∈ l2, y.2 < x.2)) :=
  ⟨c2_auto_title_selection.1 bdTitlesEx 3 2 0 (by decide),
   c2_auto_title_selection.2.1 bdTitlesEx 3 (-1) 0 (by decide) ⟨1, by decide, by decide⟩,
   c2_auto_title_selection.2.2 vmgEx4 (fun _ => vtsIfoEx) true 0 0
     (fun p hp => rfl) (by decide)⟩

/-! ### C3 -/

/-- C3 (counterexample): on a healthy one-title disc declaring a single
angle, requesting angle 5 — far outside the block's member count — still
opens successfully (`ret = 0`): the angle check only logs, it does not
fail the open with an error. -/
theorem c3_out_of_range_angle_not_fatal :
    (vmgEx1.title 0).nr_of_angles ≤ 5 ∧
    (dvd_url_open true true vmgEx1 (fun _ => vtsIfoEx) true 0 5 0).ret = 0 := by
  exact ⟨by decide, by decide⟩

/-- C3 (amended): an angle number at or above the selected title's angle
count is detected at open time and the error message is emitted
(`angle_logged = true`), but the open still succeeds (`ret = 0`) and the
angle is not clamped; the out-of-range value flows unchanged into the
cursor. -/
theorem c3_angle_error_logged_only (vmg : VmgIfo) (vts_ifos : ℕ → VtsIfo)
    (title_nr : ℤ) (angle li : ℕ)
    (ht0 : 0 ≤ title_nr) (ht1 : title_nr < (vmg.nr_of_srpts : ℤ))
    (hscan : ∀ p ∈ dvdScanPairs vmg, (vts_ifos p.1).open_ok = true)
    (httn : ¬ ((vmg.title title_nr.toNat).vts_ttn < 1 ∨
               (vmg.title title_nr.toNat).vts_ttn > vmg.nr_of_srpts))
    (hangle : 0 < angle ∧ (vmg.title title_nr.toNat).nr_of_angles ≤ angle)
    (hvts : (vts_ifos (vmg.title title_nr.toNat).title_set_nr).open_ok = true) :
    (dvd_url_open true true vmg vts_ifos true title_nr angle li).ret = 0 ∧
    (dvd_url_open true true vmg vts_ifos true title_nr angle li).angle_logged = true ∧
    (dvd_url_open true true vmg vts_ifos true title_nr angle li).cursor =
      some (ff_dvd_set_program_chain_info vmg
        (vts_ifos (vmg.title title_nr.toNat).title_set_nr) angle title_nr.toNat 0) := by
  rw [dvd_url_open_sel vmg vts_ifos true title_nr angle li (by omega) hscan]
  have hsel : dvdSelTitle vmg vts_ifos title_nr li = title_nr := by
    unfold dvdSelTitle
    rw [if_neg (by omega : ¬ title_nr < 0)]
  rw [hsel, if_neg httn,
      if_neg (show ¬ ¬ ((vts_ifos (vmg.title title_nr.toNat).title_set_nr).open_ok
        = true) by simp [hvts]),
      if_neg (show ¬ ¬ (true = true) by simp)]
  exact ⟨rfl, decide_eq_true hangle, rfl⟩

/-- C3 (witness for the amended theorem): the concrete disc of the
counterexample, with angle 5 of 1, opens with success, the logged flag set
and the unclamped cursor. -/
theorem c3_angle_error_logged_only_witness :
    (dvd_url_open true true vmgEx1 (fun _ => vtsIfoEx) true 0 5 0).ret = 0 ∧
    (dvd_url_open true true vmgEx1 (fun _ => vtsIfoEx) true 0 5 0).angle_logged = true ∧
    (dvd_url_open true true vmgEx1 (fun _ => vtsIfoEx) true 0 5 0).cursor =
      some (ff_dvd_set_program_chain_info vmgEx1
        (vtsIfoEx) 5 ((0 : ℤ)).toNat 0) :=
  c3_angle_error_logged_only vmgEx1 (fun _ => vtsIfoEx) 0 5 0
    (by decide) (by decide) (fun p hp => rfl) (by decide) (by decide) (by decide)

/-! ### C4 -/

/-- C4 (counterexample): a disc whose title 0 carries a dangling
`vts_ttn = 5` (outside `[1, 2]`) still opens successfully under automatic
selection — the dangling title encountered during enumeration is skipped,
not treated as a fatal corrupt-index error. -/
theorem c4_dangling_title_skipped_not_fatal :
    (vmgEx2.title 0).vts_ttn > vmgEx2.nr_of_srpts ∧
    (dvd_url_open true true vmgEx2 (fun _ => vtsIfoEx) true (-1) 0 0).ret = 0 := by
  exact ⟨by decide, by decide⟩

/-- C4 (amended): only the *selected* title's cross-reference is load-bearing:
when the title `dvd_url_open` settles on has `vts_ttn` outside
`[1, nr_of_srpts]`, the open fails with the fatal error code
(`AVERROR(EIO)`) and no fallback title is tried; dangling titles merely
encountered during enumeration are skipped. -/
theorem c4_selected_dangling_vts_ttn_fails (vmg : VmgIfo) (vts_ifos : ℕ → VtsIfo)
    (fok : Bool) (title_nr : ℤ) (angle li : ℕ)
    (ht : ¬ title_nr ≥ (vmg.nr_of_srpts : ℤ))
    (hscan : ∀ p ∈ dvdScanPairs vmg, (vts_ifos p.1).open_ok = true)
    (hbad : (vmg.title (dvd_url_open true true vmg vts_ifos fok title_nr angle
                li).title_nr.toNat).vts_ttn < 1 ∨
            (vmg.title (dvd_url_open true true vmg vts_ifos fok title_nr angle
                li).title_nr.toNat).vts_ttn > vmg.nr_of_srpts) :
    (dvd_url_open true true vmg vts_ifos fok title_nr angle li).ret = AVERROR_IO_ERR := by
  rw [dvd_open_sel_title_nr vmg vts_ifos fok title_nr angle li ht hscan] at hbad
  rw [dvd_url_open_sel vmg vts_ifos fok title_nr angle li ht hscan, if_pos hbad]

/-- C4 (witness for the amended theorem): explicitly selecting the only
title of a disc whose `vts_ttn = 3` exceeds its single-entry table makes the
open fail with `AVERROR(EIO)`. -/
theorem c4_selected_dangling_vts_ttn_fails_witness :
    (dvd_url_open true true vmgEx3 (fun _ => vtsIfoEx) true 0 0 0).ret = AVERROR_IO_ERR :=
  c4_selected_dangling_vts_ttn_fails vmgEx3 (fun _ => vtsIfoEx) true 0 0 0
    (by decide) (fun p hp => rfl) (by decide)

/-! ### C7 -/

/-- C7: an explicitly requested title id outside `[0, number of enumerated
titles)` makes the open fail: the DVD path rejects `title_nr >= num_titles`
with `AVERROR(EINVAL)` before selection, and the Blu-ray path — where
`bd_select_title` accepts exactly the ids in range — fails the header with
an error as soon as the out-of-range id is passed to the library. -/
theorem c7_explicit_title_validated :
    (∀ (vmg : VmgIfo) (vts_ifos : ℕ → VtsIfo) (fok : Bool) (title_nr : ℤ) (angle li : ℕ),
      (vmg.nr_of_srpts : ℤ) ≤ title_nr →
      (dvd_url_open true true vmg vts_ifos fok title_nr angle li).ret = AVERROR_EINVAL) ∧
    (∀ (num : ℕ) (titles : ℕ → BdTitleInfo) (main explicit li : ℤ)
       (selT : ℤ → Bool) (selP : ℕ → Bool),
      (∀ t : ℤ, selT t = true ↔ (0 ≤ t ∧ t < (num : ℤ))) →
      1 ≤ num → 0 ≤ explicit → (num : ℤ) ≤ explicit →
      bluray_read_header_sel true true true num titles main explicit li selT selP =
        .error AVERROR_IO_ERR) := by
  refine ⟨?_, ?_⟩
  · intro vmg vts_ifos fok title_nr angle li h
    unfold dvd_url_open
    rw [if_neg (show ¬ ¬ (true = true) by simp), if_neg (show ¬ ¬ (true = true) by simp),
        if_pos h]
  · intro num titles main explicit li selT selP hsel hnum h0 hge
    have ht : bluraySelectTitle titles num main explicit li = explicit := by
      unfold bluraySelectTitle
      rw [if_neg (by omega : ¬ explicit < 0)]
    have hno : ¬ (selT explicit = true) := by
      intro hyes
      obtain ⟨_, hlt⟩ := (hsel explicit).mp hyes
      omega
    unfold bluray_read_header_sel
    rw [if_neg (show ¬ ¬ (true = true) by simp), if_neg (show ¬ ¬ (true = true) by simp),
        if_neg (show ¬ ¬ (true = true) by simp), if_neg (by omega : ¬ num < 1), ht,
        if_pos hno]

/-- C7 (witness): title 7 on the one-title DVD fails with `AVERROR(EINVAL)`;
Blu-ray title 3 of 1, with a range-checking `bd_select_title`, fails the
header with `AVERROR(EIO)`. -/
theorem c7_explicit_title_validated_witness :
    (dvd_url_open true true vmgEx1 (fun _ => vtsIfoEx) true 7 0 0).ret = AVERROR_EINVAL ∧
    bluray_read_header_sel true true true 1 bdTitlesEx 0 3 0
      (fun t => decide (0 ≤ t ∧ t < (1 : ℤ))) (fun _ => true) = .error AVERROR_IO_ERR :=
  ⟨c7_explicit_title_validated.1 vmgEx1 (fun _ => vtsIfoEx) true 7 0 0 (by decide),
   c7_explicit_title_validated.2 1 bdTitlesEx 0 3 0
     (fun t => decide (0 ≤ t ∧ t < (1 : ℤ))) (fun _ => true)
     (fun t => by simp) (by decide) (by decide) (by decide)⟩

end FfDisc
